import Mathlib

/-!
# The watchdog command (`command/watchdog.go`)

A shallow embedding of the `watchdog` sub-command: the signal-name table and
the signal listener installed by `shutdownHandler`, the option readers
`cfgOpt` / `svcOpt`, and the section loop of `watchdogrun` that drives the
supervision engine.

External collaborators are not part of the embedded program and are taken
as they are seen through the calls the command makes:

* `conf.ConfigFile` (package `goconf`) is a record of the three methods the
  command calls: `GetSections`, `HasOption`, `GetString`;
* the engine `watchdog.Watchdog` and its service handles are a record of
  error oracles for the calls that return an error (`AddService`,
  `SetPriority`, `SetUser`); an oracle sees every call made so far, so any
  deterministic engine is covered;
* `time.ParseDuration` is a parameter; `strconv.Atoi` is modelled after the
  Go standard library for a 64-bit `int`;
* `signal.Notify` relays to the channel the signals it was given and no
  others, without blocking;
* `log.Fatalf` ends the process: the run stops with the message arguments
  and the engine calls made up to that point.
-/

namespace Watchdog

/-! ## Signal names -/

/-- Signal number of `syscall.SIGINT`. -/
def SIGINT : Int := 2

/-- Signal number of `syscall.SIGQUIT`. -/
def SIGQUIT : Int := 3

/-- Signal number of `syscall.SIGTERM`. -/
def SIGTERM : Int := 15

/-- The map literal `signalNames`, as its list of key/value entries. -/
def signalNames : List (Int × String) :=
  [(SIGINT, "SIGINT"), (SIGQUIT, "SIGQUIT"), (SIGTERM, "SIGTERM")]

/-- The function `signalName`: the table entry when there is one, otherwise
`fmt.Sprintf("SIG %d", s)`. A `syscall.Signal` is an `int`. -/
def signalName (s : Int) : String :=
  match signalNames.lookup s with
  | some name => name
  | none => "SIG " ++ toString s

/-! ## The signal listener -/

/-- A value of the interface type `os.Signal` as the listener sees it: either
a `syscall.Signal` with its number, or some other implementation, of which
only the result of `String()` is used. -/
inductive Signal where
  | sys (sig : Int)
  | other (str : String)
  deriving DecidableEq, Repr

/-- What the listener goroutine does that is visible from outside: a line
handed to `log.Printf`, or a call of `server.Shutdown()`. -/
inductive Event where
  | logged (line : String)
  | Shutdown
  deriving DecidableEq, Repr

/-- The name the loop body computes for a received value: `s.String()`,
replaced by `signalName(sig)` when the type assertion
`s.(syscall.Signal)` succeeds. -/
def receivedName : Signal → String
  | .sys sig => signalName sig
  | .other str => str

/-- One iteration of `for s := range sigc`: the log line, then
`server.Shutdown()`. -/
def handleSignal (s : Signal) : List Event :=
  [.logged ("Received " ++ receivedName s ++ ", initiating shutdown..."), .Shutdown]

/-- The goroutine started by `shutdownHandler`, run over the values it
receives from the channel `sigc`, in order of receipt. -/
def shutdownHandler : List Signal → List Event
  | [] => []
  | s :: rest => handleSignal s ++ shutdownHandler rest

/-- Number of `server.Shutdown()` calls in a run of the listener. -/
def shutdownCalls (evs : List Event) : Nat :=
  evs.count .Shutdown

/-- The lines handed to `log.Printf`, in order. -/
def logLines : List Event → List String
  | [] => []
  | .logged l :: rest => l :: logLines rest
  | .Shutdown :: rest => logLines rest

/-- The set registered with `signal.Notify`: SIGINT, SIGQUIT, SIGTERM. -/
def watched (s : Signal) : Bool :=
  s == .sys SIGINT || s == .sys SIGQUIT || s == .sys SIGTERM

deriving instance DecidableEq for Except

/-- The two error kinds of package `strconv`. -/
inductive NumError where
  | ErrSyntax
  | ErrRange
  deriving DecidableEq, Repr

/-- Largest `uint64`. -/
def maxUint64 : Nat := 2 ^ 64 - 1

/-- The digit loop of `strconv.ParseUint(s, 10, 64)`: any byte that is not a
decimal digit is a syntax error (in base 10 letters and the underscore are
rejected too); `n >= cutoff` and `n1 > maxVal` are range errors. Every byte
of a character outside ASCII is at least 0x80, hence not a digit, so the
loop is run over characters. -/
def parseUintLoop : List Char → Nat → Except NumError Nat
  | [], n => .ok n
  | c :: cs, n =>
    if c.isDigit then
      if n ≥ maxUint64 / 10 + 1 then .error .ErrRange
      else if n * 10 + (c.toNat - 48) > maxUint64 then .error .ErrRange
      else parseUintLoop cs (n * 10 + (c.toNat - 48))
    else .error .ErrSyntax

/-- The function `strconv.ParseUint(s, 10, 64)`. -/
def ParseUint (s : List Char) : Except NumError Nat :=
  if s.isEmpty then .error .ErrSyntax else parseUintLoop s 0

/-- The sign and range handling of `strconv.ParseInt(s, 10, 0)` once the sign
has been picked off, for a 64-bit `int`. -/
def parseIntSigned (neg : Bool) (digits : List Char) : Except NumError Int :=
  match ParseUint digits with
  | .error .ErrSyntax => .error .ErrSyntax
  | .error .ErrRange => .error .ErrRange
  | .ok un =>
    if !neg && un ≥ 2 ^ 63 then .error .ErrRange
    else if neg && un > 2 ^ 63 then .error .ErrRange
    else .ok (if neg then -(un : Int) else (un : Int))

/-- The function `strconv.ParseInt(s, 10, 0)`. -/
def ParseInt (s : List Char) : Except NumError Int :=
  match s with
  | [] => .error .ErrSyntax
  | c :: cs =>
    if c = '+' then parseIntSigned false cs
    else if c = '-' then parseIntSigned true cs
    else parseIntSigned false (c :: cs)

/-- The digit loop of the fast path of `strconv.Atoi`. -/
def atoiFastLoop : List Char → Nat → Except NumError Nat
  | [], n => .ok n
  | c :: cs, n =>
    if c.isDigit then atoiFastLoop cs (n * 10 + (c.toNat - 48))
    else .error .ErrSyntax

/-- The fast path of `strconv.Atoi`, taken when `0 < len(s) < 19`. -/
def atoiFast (s : List Char) : Except NumError Int :=
  match s with
  | [] => .error .ErrSyntax
  | c :: cs =>
    if c = '-' ∨ c = '+' then
      if cs.isEmpty then .error .ErrSyntax
      else
        match atoiFastLoop cs 0 with
        | .error e => .error e
        | .ok n => .ok (if c = '-' then -(n : Int) else (n : Int))
    else
      match atoiFastLoop (c :: cs) 0 with
      | .error e => .error e
      | .ok n => .ok (n : Int)

/-- The function `strconv.Atoi` on a 64-bit platform; `len(s)` counts
bytes. -/
def Atoi (s : String) : Except NumError Int :=
  if 0 < s.utf8ByteSize ∧ s.utf8ByteSize < 19 then atoiFast s.data
  else ParseInt s.data

/-- The methods of `conf.ConfigFile` that the command calls. -/
structure ConfigFile where
  GetSections : List String
  HasOption : String → String → Bool
  GetString : String → String → Except String String

/-- A call on the engine `fido` or on a service handle `svc`; a handle is
named by the section it was created for. -/
inductive Call where
  | AddService (name binary : String)
  | AddArgs (name args : String)
  | AddDependency (name dep : String)
  | SetPriority (name : String) (prio : Int)
  | SetTermTimeout (name : String) (tt : Int)
  | SetUser (name user : String)
  | Walk
  deriving DecidableEq, Repr

/-- The engine calls that return an error, as functions of the calls made
before and of the arguments: `none` is a nil error. -/
structure Engine where
  AddService : List Call → String → String → Option String
  SetPriority : List Call → String → Int → Option String
  SetUser : List Call → String → String → Option String

/-- The `log.Fatalf` calls of the file, one constructor per call site in
source order, each with the arguments of the message that come from the
configuration or from an error value. -/
inductive Fatal where
  | createLog (err : String)
  | readConfig (err : String)
  | addService (name err : String)
  | invalidPriority (name opt : String) (err : NumError)
  | setPriority (name err : String)
  | invalidTermTimeout (name opt err : String)
  | setUser (name err : String)
  | getOption (option sect err : String)
  | missingOption (service option : String)
  deriving DecidableEq, Repr

/-- The function `cfgOpt`. -/
def cfgOpt (cfg : ConfigFile) (sect option : String) : Except Fatal String :=
  if !cfg.HasOption sect option then .ok ""
  else
    match cfg.GetString sect option with
    | .error err => .error (.getOption option sect err)
    | .ok s => .ok s

/-- The function `svcOpt`. -/
def svcOpt (cfg : ConfigFile) (service option : String) (required : Bool) :
    Except Fatal String :=
  match cfgOpt cfg service option with
  | .error f => .error f
  | .ok opt =>
    if opt = "" ∧ required = true then .error (.missingOption service option)
    else .ok opt

/-- A piece of the loop body: from the engine calls made so far, the calls it
adds and the fatal error it stops with, if any. -/
abbrev Step := List Call → List Call × Option Fatal

/-- Sequencing: the second piece runs only when the first ended without a
fatal error, and sees the calls of the first. -/
def Step.andThen (a b : Step) : Step := fun hist =>
  match a hist with
  | (cs, some f) => (cs, some f)
  | (cs, none) =>
    match b (hist ++ cs) with
    | (cs', r) => (cs ++ cs', r)

/-- Lines 53-60: `binary`, `args`, `fido.AddService`, `svc.AddArgs`. -/
def stepAdd (eng : Engine) (cfg : ConfigFile) (name : String) : Step := fun hist =>
  match svcOpt cfg name "binary" true with
  | .error f => ([], some f)
  | .ok binary =>
    match svcOpt cfg name "args" false with
    | .error f => ([], some f)
    | .ok args =>
      match eng.AddService hist name binary with
      | some err => ([.AddService name binary], some (.addService name err))
      | none => ([.AddService name binary, .AddArgs name args], none)

/-- Lines 61-63: the `dependency` option. -/
def stepDependency (cfg : ConfigFile) (name : String) : Step := fun _ =>
  match svcOpt cfg name "dependency" false with
  | .error f => ([], some f)
  | .ok dep => if dep ≠ "" then ([.AddDependency name dep], none) else ([], none)

/-- Lines 64-72: the `priority` option. -/
def stepPriority (eng : Engine) (cfg : ConfigFile) (name : String) : Step := fun hist =>
  match svcOpt cfg name "priority" false with
  | .error f => ([], some f)
  | .ok opt =>
    if opt ≠ "" then
      match Atoi opt with
      | .error err => ([], some (.invalidPriority name opt err))
      | .ok prio =>
        match eng.SetPriority hist name prio with
        | some err => ([.SetPriority name prio], some (.setPriority name err))
        | none => ([.SetPriority name prio], none)
    else ([], none)

/-- Lines 73-79: the `term_timeout` option. -/
def stepTermTimeout (ParseDuration : String → Except String Int) (cfg : ConfigFile)
    (name : String) : Step := fun _ =>
  match svcOpt cfg name "term_timeout" false with
  | .error f => ([], some f)
  | .ok opt =>
    if opt ≠ "" then
      match ParseDuration opt with
      | .error err => ([], some (.invalidTermTimeout name opt err))
      | .ok tt => ([.SetTermTimeout name tt], none)
    else ([], none)

/-- Lines 81-85: the `user` option. -/
def stepUser (eng : Engine) (cfg : ConfigFile) (name : String) : Step := fun hist =>
  match svcOpt cfg name "user" false with
  | .error f => ([], some f)
  | .ok user =>
    if user ≠ "" then
      match eng.SetUser hist name user with
      | some err => ([.SetUser name user], some (.setUser name err))
      | none => ([.SetUser name user], none)
    else ([], none)

/-- The loop body of `watchdogrun` for a section other than `default`
(lines 53-85). -/
def serviceSection (ParseDuration : String → Except String Int) (eng : Engine)
    (cfg : ConfigFile) (name : String) : Step :=
  (stepAdd eng cfg name).andThen <|
  (stepDependency cfg name).andThen <|
  (stepPriority eng cfg name).andThen <|
  (stepTermTimeout ParseDuration cfg name).andThen <|
  stepUser eng cfg name

/-- The loop `for _, name := range cfg.GetSections()` (lines 49-86) over the
sections still to visit. -/
def loadSections (ParseDuration : String → Except String Int) (eng : Engine)
    (cfg : ConfigFile) : List String → Step
  | [], _ => ([], none)
  | name :: rest, hist =>
    if name = "default" then loadSections ParseDuration eng cfg rest hist
    else
      match serviceSection ParseDuration eng cfg name hist with
      | (cs, some f) => (cs, some f)
      | (cs, none) =>
        match loadSections ParseDuration eng cfg rest (hist ++ cs) with
        | (cs', r) => (cs ++ cs', r)

/-- How a run of `watchdogrun` ends: it returns its boolean, or `log.Fatalf`
ends the process. -/
inductive Outcome where
  | returned (b : Bool)
  | fatal (f : Fatal)
  deriving DecidableEq, Repr

/-- The function `watchdogrun`: `logErr` is the error of `os.Create(logpath)`
and `cfgRes` the result of `conf.ReadConfigFile(configFile)`. The result is
the list of engine calls made by the main flow, in order, and how the run
ends. -/
def watchdogrun (ParseDuration : String → Except String Int) (eng : Engine)
    (logErr : Option String) (cfgRes : Except String ConfigFile) : List Call × Outcome :=
  match logErr with
  | some err => ([], .fatal (.createLog err))
  | none =>
    match cfgRes with
    | .error err => ([], .fatal (.readConfig err))
    | .ok cfg =>
      match loadSections ParseDuration eng cfg cfg.GetSections [] with
      | (cs, some f) => (cs, .fatal f)
      | (cs, none) => (cs ++ [.Walk], .returned true)

/-! ## Observations on a list of engine calls -/

/-- Position of a call in the loop body: `AddService` is the first engine
call made for a section and `SetUser` the last; `Walk` comes after the
loop. -/
def Call.stage : Call → Nat
  | .AddService _ _ => 1
  | .AddArgs _ _ => 2
  | .AddDependency _ _ => 3
  | .SetPriority _ _ => 4
  | .SetTermTimeout _ _ => 5
  | .SetUser _ _ => 6
  | .Walk => 7

/-- The section a call belongs to; `Walk` belongs to none. -/
def Call.service : Call → Option String
  | .AddService n _ => some n
  | .AddArgs n _ => some n
  | .AddDependency n _ => some n
  | .SetPriority n _ => some n
  | .SetTermTimeout n _ => some n
  | .SetUser n _ => some n
  | .Walk => none

/-- The stage of the last engine call that can have been made for the
section when the loop body stops with the given fatal error: a failed engine
call is itself that last call, a failed read or parse stops before the call
it guards. -/
def Fatal.stage : Fatal → Nat
  | .createLog _ => 0
  | .readConfig _ => 0
  | .missingOption _ _ => 0
  | .addService _ _ => 1
  | .invalidPriority _ _ _ => 3
  | .setPriority _ _ => 4
  | .invalidTermTimeout _ _ _ => 4
  | .setUser _ _ => 6
  | .getOption option _ _ =>
    if option = "dependency" then 2
    else if option = "priority" then 3
    else if option = "term_timeout" then 4
    else if option = "user" then 5
    else 0

/-- The `AddService` calls of a list of calls, as (name, binary) pairs. -/
def addServiceCalls : List Call → List (String × String)
  | [] => []
  | .AddService n b :: rest => (n, b) :: addServiceCalls rest
  | _ :: rest => addServiceCalls rest

/-- The `AddDependency` calls of a list of calls, as (name, dependency)
pairs. -/
def addDependencyCalls : List Call → List (String × String)
  | [] => []
  | .AddDependency n d :: rest => (n, d) :: addDependencyCalls rest
  | _ :: rest => addDependencyCalls rest

/-- The value `cfg.GetString` gives for an option, empty when it gives an
error. -/
def optionValue (cfg : ConfigFile) (sect option : String) : String :=
  match cfg.GetString sect option with
  | .ok s => s
  | .error _ => ""

/-- An engine whose calls never return an error. -/
def Engine.acceptsAll (eng : Engine) : Prop :=
  (∀ hist n b, eng.AddService hist n b = none) ∧
  (∀ hist n p, eng.SetPriority hist n p = none) ∧
  (∀ hist n u, eng.SetUser hist n u = none)

/-- The options of a section can all be read, `binary` is not empty, and
`priority` and `term_timeout` parse when they are not empty. Nothing is asked
of the value of `dependency`. -/
def optionsValid (ParseDuration : String → Except String Int) (cfg : ConfigFile)
    (name : String) : Bool :=
  (match svcOpt cfg name "binary" true with
    | .ok _ => true
    | .error _ => false) &&
  (match svcOpt cfg name "args" false with
    | .ok _ => true
    | .error _ => false) &&
  (match svcOpt cfg name "dependency" false with
    | .ok _ => true
    | .error _ => false) &&
  (match svcOpt cfg name "priority" false with
    | .ok opt =>
      (match Atoi opt with
        | .ok _ => true
        | .error _ => decide (opt = ""))
    | .error _ => false) &&
  (match svcOpt cfg name "term_timeout" false with
    | .ok opt =>
      (match ParseDuration opt with
        | .ok _ => true
        | .error _ => decide (opt = ""))
    | .error _ => false) &&
  (match svcOpt cfg name "user" false with
    | .ok _ => true
    | .error _ => false)

/-- What a piece of the loop body for section `name` keeps to: its calls are
on that section, at stages above `lo` and up to `hi`; a fatal error it stops
with has a stage from `lo` to `hi`, and no call of the piece has a later
stage than the error. -/
def Step.within (lo hi : Nat) (name : String) (S : Step) : Prop :=
  ∀ hist cs r, S hist = (cs, r) →
    (∀ c ∈ cs, c.service = some name ∧ lo < c.stage ∧ c.stage ≤ hi) ∧
    (∀ f, r = some f → lo ≤ f.stage ∧ f.stage ≤ hi ∧ ∀ c ∈ cs, c.stage ≤ f.stage)

/-! ## Concrete collaborators used in examples -/

/-- An in-memory configuration source: sections in order, each with its
options; `GetString` on an option that is not there is an error. -/
def iniConfig (sections : List (String × List (String × String))) : ConfigFile where
  GetSections := sections.map Prod.fst
  HasOption := fun s o =>
    match sections.lookup s with
    | some opts => (opts.lookup o).isSome
    | none => false
  GetString := fun s o =>
    match sections.lookup s with
    | some opts =>
      (match opts.lookup o with
        | some v => .ok v
        | none => .error "option not found")
    | none => .error "section not found"

/-- An engine that accepts every call. -/
def permissiveEngine : Engine where
  AddService := fun _ _ _ => none
  SetPriority := fun _ _ _ => none
  SetUser := fun _ _ _ => none

/-- A duration parser for examples: whole seconds written `<digits>s`, in
nanoseconds; everything else is an error. -/
def secondsOnly (s : String) : Except String Int :=
  match s.data.reverse with
  | c :: rest =>
    if c = 's' then
      (match ParseUint rest.reverse with
        | .ok n => .ok ((n : Int) * 1000000000)
        | .error _ => .error "invalid duration")
    else .error "invalid duration"
  | [] => .error "invalid duration"

/-- Scenario A: two independent services. -/
def scenarioA : ConfigFile :=
  iniConfig
    [("default", [("log", "x")]),
     ("web", [("binary", "/bin/web"), ("priority", "10")]),
     ("db", [("binary", "/bin/db"), ("priority", "1")])]

/-- Scenario B: `api` depends on `db`, and `db` is defined. -/
def scenarioB : ConfigFile :=
  iniConfig
    [("api", [("binary", "/bin/api"), ("dependency", "db")]),
     ("db", [("binary", "/bin/db")])]

/-- Scenario B without the `db` section. -/
def scenarioBNoDb : ConfigFile :=
  iniConfig [("api", [("binary", "/bin/api"), ("dependency", "db")])]

/-- Two service sections, neither with a `binary` option. -/
def twoWithoutBinary : ConfigFile :=
  iniConfig [("a", [("args", "-v")]), ("b", [("args", "-q")])]

/-- A section with a `priority` that is not a number, followed by a section
with no `binary` option. -/
def badPriorityThenNoBinary : ConfigFile :=
  iniConfig [("a", [("binary", "/bin/a"), ("priority", "high")]), ("b", [("args", "-q")])]

/-- A section with a `priority` that is not a number. -/
def badPriority : ConfigFile :=
  iniConfig [("web", [("binary", "/bin/web")]), ("a", [("binary", "/bin/a"), ("priority", "high")])]

/-- An engine that accepts services and priorities and knows no user. -/
def noUserEngine : Engine where
  AddService := fun _ _ _ => none
  SetPriority := fun _ _ _ => none
  SetUser := fun _ _ _ => some "unknown user"

/-- A section that asks for a run-as user, followed by another section. -/
def withUser : ConfigFile :=
  iniConfig
    [("a", [("binary", "/bin/a"), ("priority", "5"), ("term_timeout", "30s"),
        ("user", "nobody")]),
     ("b", [("binary", "/bin/b")])]

/-- A source that reports the option `args` of section `a` as present and
fails to return it. -/
def unreadableArgs : ConfigFile where
  GetSections := ["a"]
  HasOption := fun s o => s = "a" ∧ (o = "binary" ∨ o = "args")
  GetString := fun s o =>
    if s = "a" ∧ o = "binary" then .ok "/bin/a" else .error "unreadable"

end Watchdog

namespace Watchdog

/-! ## Signal names and the listener -/

theorem lookup_signalNames_none (s : Int) (h1 : s ≠ SIGINT) (h2 : s ≠ SIGQUIT)
    (h3 : s ≠ SIGTERM) : signalNames.lookup s = none := by
  have e1 : (s == SIGINT) = false := by simpa using h1
  have e2 : (s == SIGQUIT) = false := by simpa using h2
  have e3 : (s == SIGTERM) = false := by simpa using h3
  simp [signalNames, List.lookup_cons, e1, e2, e3]

theorem signalName_unknown (s : Int) (h1 : s ≠ SIGINT) (h2 : s ≠ SIGQUIT)
    (h3 : s ≠ SIGTERM) : signalName s = "SIG " ++ toString s := by
  unfold signalName
  rw [lookup_signalNames_none s h1 h2 h3]

/-- C2: `signalName` is defined on every signal number: it gives "SIGINT",
"SIGQUIT" and "SIGTERM" on the interrupt, quit and terminate signals, and on
every other number the text "SIG " followed by the number in decimal. -/
theorem signalName_total (s : Int) :
    signalName s =
      if s = SIGINT then "SIGINT"
      else if s = SIGQUIT then "SIGQUIT"
      else if s = SIGTERM then "SIGTERM"
      else "SIG " ++ toString s := by
  by_cases h1 : s = SIGINT
  · subst h1; rfl
  · by_cases h2 : s = SIGQUIT
    · subst h2; rfl
    · by_cases h3 : s = SIGTERM
      · subst h3; rfl
      · rw [signalName_unknown s h1 h2 h3]; simp [h1, h2, h3]

theorem shutdownHandler_append (xs ys : List Signal) :
    shutdownHandler (xs ++ ys) = shutdownHandler xs ++ shutdownHandler ys := by
  induction xs with
  | nil => rfl
  | cons x xs ih => simp [shutdownHandler, ih]

theorem shutdownCalls_shutdownHandler (sigs : List Signal) :
    shutdownCalls (shutdownHandler sigs) = sigs.length := by
  induction sigs with
  | nil => rfl
  | cons x xs ih =>
    unfold shutdownCalls at ih ⊢
    simp [shutdownHandler, handleSignal, List.count_cons, ih]

theorem logLines_shutdownHandler (sigs : List Signal) :
    logLines (shutdownHandler sigs) =
      sigs.map (fun s => "Received " ++ receivedName s ++ ", initiating shutdown...") := by
  induction sigs with
  | nil => rfl
  | cons x xs ih => simp [shutdownHandler, handleSignal, logLines, ih]

theorem receivedName_watched (s : Signal) (h : watched s = true) :
    receivedName s = "SIGINT" ∨ receivedName s = "SIGQUIT" ∨ receivedName s = "SIGTERM" := by
  unfold watched at h
  simp only [Bool.or_eq_true, beq_iff_eq] at h
  rcases h with (h | h) | h <;> subst h
  · left; rfl
  · right; left; rfl
  · right; right; rfl

/-- C1, the claim as stated fails: interrupt, quit and terminate received in
a row give three `Shutdown` calls, not one. -/
theorem three_signals_three_shutdowns :
    (∀ s ∈ [Signal.sys SIGINT, .sys SIGQUIT, .sys SIGTERM], watched s = true) ∧
    shutdownHandler [.sys SIGINT, .sys SIGQUIT, .sys SIGTERM] =
      [.logged "Received SIGINT, initiating shutdown...", .Shutdown,
       .logged "Received SIGQUIT, initiating shutdown...", .Shutdown,
       .logged "Received SIGTERM, initiating shutdown...", .Shutdown] ∧
    shutdownCalls (shutdownHandler [.sys SIGINT, .sys SIGQUIT, .sys SIGTERM]) ≠ 1 := by
  decide

/-- C1, amended: for every N ≥ 1 and every sequence of N watched signals
received by the listener, `Shutdown` is invoked exactly N times, once for
each signal right after that signal's log line "Received <name>, initiating
shutdown..." with <name> one of SIGINT, SIGQUIT, SIGTERM; so it is invoked
exactly once precisely when N = 1. -/
theorem shutdown_once_per_signal (sigs : List Signal) (hN : 1 ≤ sigs.length)
    (hw : ∀ s ∈ sigs, watched s = true) :
    shutdownCalls (shutdownHandler sigs) = sigs.length ∧
    (shutdownCalls (shutdownHandler sigs) = 1 ↔ sigs.length = 1) ∧
    (∀ pre s post, sigs = pre ++ s :: post →
      shutdownHandler sigs =
        shutdownHandler pre ++
          [.logged ("Received " ++ receivedName s ++ ", initiating shutdown..."), .Shutdown] ++
          shutdownHandler post) ∧
    logLines (shutdownHandler sigs) =
      sigs.map (fun s => "Received " ++ receivedName s ++ ", initiating shutdown...") ∧
    (∀ s ∈ sigs, receivedName s = "SIGINT" ∨ receivedName s = "SIGQUIT" ∨
      receivedName s = "SIGTERM") ∧
    0 < shutdownCalls (shutdownHandler sigs) := by
  refine ⟨shutdownCalls_shutdownHandler sigs, ?_, ?_, logLines_shutdownHandler sigs, ?_, ?_⟩
  · rw [shutdownCalls_shutdownHandler]
  · intro pre s post h
    subst h
    rw [shutdownHandler_append]
    simp [shutdownHandler, handleSignal]
  · intro s hs
    exact receivedName_watched s (hw s hs)
  · rw [shutdownCalls_shutdownHandler]; exact hN

/-- Interrupt then terminate: two `Shutdown` calls. -/
theorem shutdown_once_per_signal_witness :
    shutdownCalls (shutdownHandler [.sys SIGINT, .sys SIGTERM]) = 2 :=
  (shutdown_once_per_signal [.sys SIGINT, .sys SIGTERM] (by decide) (by decide)).1

/-- C10, the claim as stated fails: when the source reports the option as
present and `GetString` returns an error, the optional read ends the load
with the fatal error of `cfgOpt`. -/
theorem optional_read_can_end_load :
    unreadableArgs.HasOption "a" "args" = true ∧
    unreadableArgs.GetString "a" "args" = .error "unreadable" ∧
    svcOpt unreadableArgs "a" "args" false = .error (.getOption "args" "a" "unreadable") ∧
    watchdogrun secondsOnly permissiveEngine none (.ok unreadableArgs) =
      ([], .fatal (.getOption "args" "a" "unreadable")) := by
  decide

/-- C10, amended: the optional read (`svcOpt` with `required = false`)
returns the empty string when the option is absent and the value of
`GetString` when the option is present and `GetString` succeeds, and never
gives the missing-option error; when the source reports the option as present
and `GetString` returns an error, it ends the load with the fatal error of
`cfgOpt` naming the option, the section and that error. -/
theorem svcOpt_optional (cfg : ConfigFile) (service option : String) :
    svcOpt cfg service option false =
      if cfg.HasOption service option = true then
        match cfg.GetString service option with
        | .ok v => .ok v
        | .error err => .error (.getOption option service err)
      else .ok "" := by
  unfold svcOpt cfgOpt
  cases hh : cfg.HasOption service option
  · simp
  · cases hg : cfg.GetString service option <;> simp

/-! ## `strconv.Atoi` on text that is not a number -/

theorem andThen_none (a b : Step) (hist cs : List Call) (h : a.andThen b hist = (cs, none)) :
    ∃ c1 c2, a hist = (c1, none) ∧ b (hist ++ c1) = (c2, none) ∧ cs = c1 ++ c2 := by
  unfold Step.andThen at h
  split at h
  · simp at h
  · next c1 ha =>
    split at h
    next c2 r hb =>
    simp only [Prod.mk.injEq] at h
    obtain ⟨h1, h2⟩ := h
    subst h2
    exact ⟨c1, c2, ha, hb, h1.symm⟩

theorem andThen_some (a b : Step) (hist cs : List Call) (f : Fatal)
    (h : a.andThen b hist = (cs, some f)) :
    a hist = (cs, some f) ∨
    ∃ c1 c2, a hist = (c1, none) ∧ b (hist ++ c1) = (c2, some f) ∧ cs = c1 ++ c2 := by
  unfold Step.andThen at h
  split at h
  · next c1 g ha =>
    simp only [Prod.mk.injEq, Option.some.injEq] at h
    obtain ⟨h1, h2⟩ := h
    subst h1; subst h2
    exact Or.inl ha
  · next c1 ha =>
    split at h
    next c2 r hb =>
    simp only [Prod.mk.injEq] at h
    obtain ⟨h1, h2⟩ := h
    subst h2
    exact Or.inr ⟨c1, c2, ha, hb, h1.symm⟩

theorem andThen_of_none (a b : Step) (hist c1 : List Call) (ha : a hist = (c1, none)) :
    a.andThen b hist = (c1 ++ (b (hist ++ c1)).1, (b (hist ++ c1)).2) := by
  unfold Step.andThen
  rw [ha]

theorem andThen_of_some (a b : Step) (hist c1 : List Call) (f : Fatal)
    (ha : a hist = (c1, some f)) : a.andThen b hist = (c1, some f) := by
  unfold Step.andThen
  rw [ha]

theorem svcOpt_optional_error (cfg : ConfigFile) (name option : String) (f : Fatal)
    (h : svcOpt cfg name option false = .error f) :
    ∃ err, f = .getOption option name err := by
  unfold svcOpt cfgOpt at h
  cases hh : cfg.HasOption name option
  · simp [hh] at h
  · cases hg : cfg.GetString name option with
    | error e =>
      simp [hh, hg] at h
      exact ⟨e, h.symm⟩
    | ok v => simp [hh, hg] at h

theorem svcOpt_required_ok (cfg : ConfigFile) (name option v : String)
    (h : svcOpt cfg name option true = .ok v) :
    cfg.HasOption name option = true ∧ cfg.GetString name option = .ok v ∧ v ≠ "" := by
  unfold svcOpt cfgOpt at h
  cases hh : cfg.HasOption name option
  · simp [hh] at h
  · cases hg : cfg.GetString name option with
    | error e => simp [hh, hg] at h
    | ok w =>
      simp only [hh, hg, Bool.not_true, Bool.false_eq_true, if_false, and_true] at h
      by_cases hw : w = ""
      · simp [hw] at h
      · simp only [hw, if_false, Except.ok.injEq] at h
        subst h
        exact ⟨rfl, rfl, hw⟩

theorem svcOpt_required_error (cfg : ConfigFile) (name option : String) (f : Fatal)
    (h : svcOpt cfg name option true = .error f) :
    f = .missingOption name option ∨ ∃ err, f = .getOption option name err := by
  unfold svcOpt cfgOpt at h
  cases hh : cfg.HasOption name option
  · simp [hh] at h
    exact Or.inl h.symm
  · cases hg : cfg.GetString name option with
    | error e =>
      simp [hh, hg] at h
      exact Or.inr ⟨e, h.symm⟩
    | ok w =>
      simp only [hh, hg, Bool.not_true, Bool.false_eq_true, if_false, and_true] at h
      by_cases hw : w = ""
      · simp [hw] at h
        exact Or.inl h.symm
      · simp [hw] at h

theorem svcOpt_missing (cfg : ConfigFile) (name option : String)
    (h : cfg.HasOption name option = false ∨ cfg.GetString name option = .ok "") :
    svcOpt cfg name option true = .error (.missingOption name option) := by
  unfold svcOpt cfgOpt
  cases hh : cfg.HasOption name option
  · simp
  · rcases h with h | h
    · rw [hh] at h; cases h
    · simp [h]

theorem within_andThen (lo mid hi : Nat) (name : String) (a b : Step)
    (ha : a.within lo mid name) (hb : b.within mid hi name) (h1 : lo ≤ mid) (h2 : mid ≤ hi) :
    (a.andThen b).within lo hi name := by
  intro hist cs r h
  cases r with
  | none =>
    obtain ⟨c1, c2, e1, e2, rfl⟩ := andThen_none a b hist cs h
    have A := (ha hist c1 none e1).1
    have B := (hb (hist ++ c1) c2 none e2).1
    refine ⟨?_, ?_⟩
    · intro c hc
      rcases List.mem_append.mp hc with hc | hc
      · obtain ⟨s1, s2, s3⟩ := A c hc
        exact ⟨s1, s2, by omega⟩
      · obtain ⟨s1, s2, s3⟩ := B c hc
        exact ⟨s1, by omega, s3⟩
    · intro f hf; cases hf
  | some f =>
    rcases andThen_some a b hist cs f h with e1 | ⟨c1, c2, e1, e2, rfl⟩
    · obtain ⟨A, F⟩ := ha hist cs (some f) e1
      obtain ⟨f1, f2, f3⟩ := F f rfl
      refine ⟨?_, ?_⟩
      · intro c hc
        obtain ⟨s1, s2, s3⟩ := A c hc
        exact ⟨s1, s2, by omega⟩
      · intro g hg
        cases hg
        exact ⟨f1, by omega, f3⟩
    · have A := (ha hist c1 none e1).1
      obtain ⟨B, F⟩ := hb (hist ++ c1) c2 (some f) e2
      obtain ⟨f1, f2, f3⟩ := F f rfl
      refine ⟨?_, ?_⟩
      · intro c hc
        rcases List.mem_append.mp hc with hc | hc
        · obtain ⟨s1, s2, s3⟩ := A c hc
          exact ⟨s1, s2, by omega⟩
        · obtain ⟨s1, s2, s3⟩ := B c hc
          exact ⟨s1, by omega, s3⟩
      · intro g hg
        cases hg
        refine ⟨by omega, f2, ?_⟩
        intro c hc
        rcases List.mem_append.mp hc with hc | hc
        · obtain ⟨s1, s2, s3⟩ := A c hc
          omega
        · exact f3 c hc

theorem stepAdd_within (eng : Engine) (cfg : ConfigFile) (name : String) :
    (stepAdd eng cfg name).within 0 2 name := by
  intro hist cs r h
  unfold stepAdd at h
  cases hb : svcOpt cfg name "binary" true with
  | error f =>
    simp only [hb, Prod.mk.injEq] at h
    obtain ⟨rfl, rfl⟩ := h
    rcases svcOpt_required_error cfg name "binary" f hb with rfl | ⟨e, rfl⟩
    · simp [Fatal.stage]
    · simp [Fatal.stage]
  | ok binary =>
    cases ha : svcOpt cfg name "args" false with
    | error f =>
      simp only [hb, ha, Prod.mk.injEq] at h
      obtain ⟨rfl, rfl⟩ := h
      obtain ⟨e, rfl⟩ := svcOpt_optional_error cfg name "args" f ha
      simp [Fatal.stage]
    | ok args =>
      cases he : eng.AddService hist name binary with
      | some err =>
        simp only [hb, ha, he, Prod.mk.injEq] at h
        obtain ⟨rfl, rfl⟩ := h
        simp [Fatal.stage, Call.stage, Call.service]
      | none =>
        simp only [hb, ha, he, Prod.mk.injEq] at h
        obtain ⟨rfl, rfl⟩ := h
        simp [Call.stage, Call.service]

theorem stepDependency_within (cfg : ConfigFile) (name : String) :
    (stepDependency cfg name).within 2 3 name := by
  intro hist cs r h
  unfold stepDependency at h
  cases hd : svcOpt cfg name "dependency" false with
  | error f =>
    simp only [hd, Prod.mk.injEq] at h
    obtain ⟨rfl, rfl⟩ := h
    obtain ⟨e, rfl⟩ := svcOpt_optional_error cfg name "dependency" f hd
    simp [Fatal.stage]
  | ok dep =>
    simp only [hd] at h
    split at h
    · simp only [Prod.mk.injEq] at h
      obtain ⟨rfl, rfl⟩ := h
      simp [Call.stage, Call.service]
    · simp only [Prod.mk.injEq] at h
      obtain ⟨rfl, rfl⟩ := h
      simp

theorem stepPriority_within (eng : Engine) (cfg : ConfigFile) (name : String) :
    (stepPriority eng cfg name).within 3 4 name := by
  intro hist cs r h
  unfold stepPriority at h
  cases hd : svcOpt cfg name "priority" false with
  | error f =>
    simp only [hd, Prod.mk.injEq] at h
    obtain ⟨rfl, rfl⟩ := h
    obtain ⟨e, rfl⟩ := svcOpt_optional_error cfg name "priority" f hd
    simp [Fatal.stage]
  | ok opt =>
    simp only [hd] at h
    split at h
    · cases hp : Atoi opt with
      | error e =>
        simp only [hp, Prod.mk.injEq] at h
        obtain ⟨rfl, rfl⟩ := h
        simp [Fatal.stage]
      | ok prio =>
        cases he : eng.SetPriority hist name prio with
        | some err =>
          simp only [hp, he, Prod.mk.injEq] at h
          obtain ⟨rfl, rfl⟩ := h
          simp [Fatal.stage, Call.stage, Call.service]
        | none =>
          simp only [hp, he, Prod.mk.injEq] at h
          obtain ⟨rfl, rfl⟩ := h
          simp [Call.stage, Call.service]
    · simp only [Prod.mk.injEq] at h
      obtain ⟨rfl, rfl⟩ := h
      simp

theorem stepTermTimeout_within (pd : String → Except String Int) (cfg : ConfigFile)
    (name : String) : (stepTermTimeout pd cfg name).within 4 5 name := by
  intro hist cs r h
  unfold stepTermTimeout at h
  cases hd : svcOpt cfg name "term_timeout" false with
  | error f =>
    simp only [hd, Prod.mk.injEq] at h
    obtain ⟨rfl, rfl⟩ := h
    obtain ⟨e, rfl⟩ := svcOpt_optional_error cfg name "term_timeout" f hd
    simp [Fatal.stage]
  | ok opt =>
    simp only [hd] at h
    split at h
    · cases hp : pd opt with
      | error e =>
        simp only [hp, Prod.mk.injEq] at h
        obtain ⟨rfl, rfl⟩ := h
        simp [Fatal.stage]
      | ok tt =>
        simp only [hp, Prod.mk.injEq] at h
        obtain ⟨rfl, rfl⟩ := h
        simp [Call.stage, Call.service]
    · simp only [Prod.mk.injEq] at h
      obtain ⟨rfl, rfl⟩ := h
      simp

theorem stepUser_within (eng : Engine) (cfg : ConfigFile) (name : String) :
    (stepUser eng cfg name).within 5 6 name := by
  intro hist cs r h
  unfold stepUser at h
  cases hd : svcOpt cfg name "user" false with
  | error f =>
    simp only [hd, Prod.mk.injEq] at h
    obtain ⟨rfl, rfl⟩ := h
    obtain ⟨e, rfl⟩ := svcOpt_optional_error cfg name "user" f hd
    simp [Fatal.stage]
  | ok user =>
    simp only [hd] at h
    split at h
    · cases he : eng.SetUser hist name user with
      | some err =>
        simp only [he, Prod.mk.injEq] at h
        obtain ⟨rfl, rfl⟩ := h
        simp [Fatal.stage, Call.stage, Call.service]
      | none =>
        simp only [he, Prod.mk.injEq] at h
        obtain ⟨rfl, rfl⟩ := h
        simp [Call.stage, Call.service]
    · simp only [Prod.mk.injEq] at h
      obtain ⟨rfl, rfl⟩ := h
      simp

theorem afterAdd_within (pd : String → Except String Int) (eng : Engine) (cfg : ConfigFile)
    (name : String) :
    ((stepPriority eng cfg name).andThen
      ((stepTermTimeout pd cfg name).andThen (stepUser eng cfg name))).within 3 6 name :=
  within_andThen 3 4 6 name _ _ (stepPriority_within eng cfg name)
    (within_andThen 4 5 6 name _ _ (stepTermTimeout_within pd cfg name)
      (stepUser_within eng cfg name) (by omega) (by omega)) (by omega) (by omega)

theorem serviceSection_within (pd : String → Except String Int) (eng : Engine)
    (cfg : ConfigFile) (name : String) : (serviceSection pd eng cfg name).within 0 6 name :=
  within_andThen 0 2 6 name _ _ (stepAdd_within eng cfg name)
    (within_andThen 2 3 6 name _ _ (stepDependency_within cfg name)
      (afterAdd_within pd eng cfg name) (by omega) (by omega)) (by omega) (by omega)

/-! ## The section loop -/

theorem svcOpt_present (cfg : ConfigFile) (name option v : String)
    (hh : cfg.HasOption name option = true) (hg : cfg.GetString name option = .ok v) :
    svcOpt cfg name option false = .ok v := by
  simp [svcOpt, cfgOpt, hh, hg]

theorem svcOpt_absent (cfg : ConfigFile) (name option : String)
    (hh : cfg.HasOption name option = false) :
    svcOpt cfg name option false = .ok "" := by
  simp [svcOpt, cfgOpt, hh]

theorem loadSections_default (pd : String → Except String Int) (eng : Engine)
    (cfg : ConfigFile) (rest : List String) (hist : List Call) :
    loadSections pd eng cfg ("default" :: rest) hist = loadSections pd eng cfg rest hist := by
  simp [loadSections]

theorem loadSections_service (pd : String → Except String Int) (eng : Engine)
    (cfg : ConfigFile) (name : String) (rest : List String) (hist : List Call)
    (hnd : name ≠ "default") :
    loadSections pd eng cfg (name :: rest) hist =
      (serviceSection pd eng cfg name).andThen (loadSections pd eng cfg rest) hist := by
  simp only [loadSections, hnd, if_false, Step.andThen]

theorem loadSections_fatal_split (pd : String → Except String Int) (eng : Engine)
    (cfg : ConfigFile) (names : List String) (hist cs : List Call) (f : Fatal)
    (h : loadSections pd eng cfg names hist = (cs, some f)) :
    ∃ pre name post done calls, names = pre ++ name :: post ∧ name ≠ "default" ∧
      loadSections pd eng cfg pre hist = (done, none) ∧
      serviceSection pd eng cfg name (hist ++ done) = (calls, some f) ∧
      cs = done ++ calls := by
  induction names generalizing hist cs with
  | nil => simp [loadSections] at h
  | cons n rest ih =>
    by_cases hn : n = "default"
    · subst hn
      rw [loadSections_default] at h
      obtain ⟨pre, name, post, done, calls, e1, e2, e3, e4, e5⟩ := ih hist cs h
      refine ⟨"default" :: pre, name, post, done, calls, by simp [e1], e2, ?_, e4, e5⟩
      rw [loadSections_default]; exact e3
    · rw [loadSections_service pd eng cfg n rest hist hn] at h
      rcases andThen_some _ _ hist cs f h with e | ⟨c1, c2, e1, e2, rfl⟩
      · refine ⟨[], n, rest, [], cs, rfl, hn, rfl, ?_, by simp⟩
        simpa using e
      · obtain ⟨pre, name, post, done, calls, p1, p2, p3, p4, p5⟩ := ih (hist ++ c1) c2 e2
        refine ⟨n :: pre, name, post, c1 ++ done, calls, by simp [p1], p2, ?_, ?_, ?_⟩
        · rw [loadSections_service pd eng cfg n pre hist hn,
            andThen_of_none _ _ hist c1 e1, p3]
        · rw [← List.append_assoc]; exact p4
        · rw [p5, List.append_assoc]

theorem loadSections_append_none (pd : String → Except String Int) (eng : Engine)
    (cfg : ConfigFile) (pre post : List String) (hist done : List Call)
    (h : loadSections pd eng cfg pre hist = (done, none)) :
    loadSections pd eng cfg (pre ++ post) hist =
      (done ++ (loadSections pd eng cfg post (hist ++ done)).1,
        (loadSections pd eng cfg post (hist ++ done)).2) := by
  induction pre generalizing hist done with
  | nil =>
    simp only [loadSections, Prod.mk.injEq, and_true] at h
    subst h
    simp
  | cons n rest ih =>
    by_cases hn : n = "default"
    · subst hn
      rw [loadSections_default] at h
      rw [List.cons_append, loadSections_default]
      exact ih hist done h
    · rw [loadSections_service pd eng cfg n rest hist hn] at h
      obtain ⟨c1, c2, e1, e2, rfl⟩ := andThen_none _ _ hist done h
      rw [List.cons_append, loadSections_service pd eng cfg n (rest ++ post) hist hn,
        andThen_of_none _ _ hist c1 e1, ih (hist ++ c1) c2 e2]
      simp [List.append_assoc]

theorem loadSections_calls (pd : String → Except String Int) (eng : Engine)
    (cfg : ConfigFile) (names : List String) (hist cs : List Call) (r : Option Fatal)
    (h : loadSections pd eng cfg names hist = (cs, r)) :
    ∀ c ∈ cs, ∃ n ∈ names, n ≠ "default" ∧ c.service = some n := by
  induction names generalizing hist cs with
  | nil =>
    simp only [loadSections, Prod.mk.injEq] at h
    obtain ⟨rfl, _⟩ := h
    simp
  | cons n rest ih =>
    by_cases hn : n = "default"
    · subst hn
      rw [loadSections_default] at h
      intro c hc
      obtain ⟨m, hm, h1, h2⟩ := ih hist cs h c hc
      exact ⟨m, List.mem_cons_of_mem _ hm, h1, h2⟩
    · rw [loadSections_service pd eng cfg n rest hist hn] at h
      intro c hc
      cases r with
      | none =>
        obtain ⟨c1, c2, e1, e2, rfl⟩ := andThen_none _ _ hist cs h
        rcases List.mem_append.mp hc with hc | hc
        · exact ⟨n, List.mem_cons_self _ _, hn,
            ((serviceSection_within pd eng cfg n hist c1 none e1).1 c hc).1⟩
        · obtain ⟨m, hm, h1, h2⟩ := ih (hist ++ c1) c2 e2 c hc
          exact ⟨m, List.mem_cons_of_mem _ hm, h1, h2⟩
      | some f =>
        rcases andThen_some _ _ hist cs f h with e | ⟨c1, c2, e1, e2, rfl⟩
        · exact ⟨n, List.mem_cons_self _ _, hn,
            ((serviceSection_within pd eng cfg n hist cs (some f) e).1 c hc).1⟩
        · rcases List.mem_append.mp hc with hc | hc
          · exact ⟨n, List.mem_cons_self _ _, hn,
              ((serviceSection_within pd eng cfg n hist c1 none e1).1 c hc).1⟩
          · obtain ⟨m, hm, h1, h2⟩ := ih (hist ++ c1) c2 e2 c hc
            exact ⟨m, List.mem_cons_of_mem _ hm, h1, h2⟩

theorem loadSections_no_walk (pd : String → Except String Int) (eng : Engine)
    (cfg : ConfigFile) (names : List String) (hist cs : List Call) (r : Option Fatal)
    (h : loadSections pd eng cfg names hist = (cs, r)) : Call.Walk ∉ cs := by
  intro hw
  obtain ⟨n, _, _, hs⟩ := loadSections_calls pd eng cfg names hist cs r h _ hw
  simp [Call.service] at hs

theorem loadSections_fails (pd : String → Except String Int) (eng : Engine)
    (cfg : ConfigFile) (name : String) (hnd : name ≠ "default")
    (hfail : ∀ hist cs, serviceSection pd eng cfg name hist ≠ (cs, none))
    (names : List String) (hin : name ∈ names) (hist : List Call) :
    ∃ cs f, loadSections pd eng cfg names hist = (cs, some f) := by
  induction names generalizing hist with
  | nil => simp at hin
  | cons n rest ih =>
    by_cases hn : n = "default"
    · subst hn
      rw [loadSections_default]
      have hin' : name ∈ rest := by
        rcases List.mem_cons.mp hin with h | h
        · exact absurd h hnd
        · exact h
      exact ih hin' hist
    · rw [loadSections_service pd eng cfg n rest hist hn]
      rcases hs : serviceSection pd eng cfg n hist with ⟨c1, _ | f⟩
      · have hne : name ≠ n := by
          rintro rfl
          exact hfail hist c1 hs
        have hin' : name ∈ rest := by
          rcases List.mem_cons.mp hin with h | h
          · exact absurd h hne
          · exact h
        obtain ⟨cs, f, e⟩ := ih hin' (hist ++ c1)
        exact ⟨c1 ++ cs, f, by rw [andThen_of_none _ _ hist c1 hs, e]⟩
      · exact ⟨c1, f, andThen_of_some _ _ hist c1 f hs⟩

theorem watchdogrun_fatal (pd : String → Except String Int) (eng : Engine)
    (cfg : ConfigFile) (cs : List Call) (f : Fatal)
    (h : loadSections pd eng cfg cfg.GetSections [] = (cs, some f)) :
    watchdogrun pd eng none (.ok cfg) = (cs, .fatal f) := by
  simp [watchdogrun, h]

theorem watchdogrun_returned (pd : String → Except String Int) (eng : Engine)
    (cfg : ConfigFile) (cs : List Call)
    (h : loadSections pd eng cfg cfg.GetSections [] = (cs, none)) :
    watchdogrun pd eng none (.ok cfg) = (cs ++ [.Walk], .returned true) := by
  simp [watchdogrun, h]

theorem watchdogrun_of_fatal (pd : String → Except String Int) (eng : Engine)
    (cfg : ConfigFile) (f : Fatal)
    (h : (watchdogrun pd eng none (.ok cfg)).2 = .fatal f) :
    loadSections pd eng cfg cfg.GetSections [] =
      ((watchdogrun pd eng none (.ok cfg)).1, some f) := by
  rcases hl : loadSections pd eng cfg cfg.GetSections [] with ⟨cs, _ | g⟩
  · rw [watchdogrun_returned pd eng cfg cs hl] at h
    simp at h
  · rw [watchdogrun_fatal pd eng cfg cs g hl] at h ⊢
    simp only [Outcome.fatal.injEq] at h
    rw [h]

theorem watchdogrun_of_returned (pd : String → Except String Int) (eng : Engine)
    (cfg : ConfigFile) (b : Bool)
    (h : (watchdogrun pd eng none (.ok cfg)).2 = .returned b) :
    ∃ cs, loadSections pd eng cfg cfg.GetSections [] = (cs, none) ∧
      watchdogrun pd eng none (.ok cfg) = (cs ++ [.Walk], .returned true) := by
  rcases hl : loadSections pd eng cfg cfg.GetSections [] with ⟨cs, _ | g⟩
  · exact ⟨cs, rfl, watchdogrun_returned pd eng cfg cs hl⟩
  · rw [watchdogrun_fatal pd eng cfg cs g hl] at h
    simp at h

/-! ## What a section that loads adds to the engine -/

theorem addServiceCalls_append (xs ys : List Call) :
    addServiceCalls (xs ++ ys) = addServiceCalls xs ++ addServiceCalls ys := by
  induction xs with
  | nil => rfl
  | cons x xs ih => cases x <;> simp [addServiceCalls, ih]

theorem addDependencyCalls_append (xs ys : List Call) :
    addDependencyCalls (xs ++ ys) = addDependencyCalls xs ++ addDependencyCalls ys := by
  induction xs with
  | nil => rfl
  | cons x xs ih => cases x <;> simp [addDependencyCalls, ih]

theorem addServiceCalls_later (cs : List Call) (h : ∀ c ∈ cs, 1 < c.stage) :
    addServiceCalls cs = [] := by
  induction cs with
  | nil => rfl
  | cons x xs ih =>
    have hx := h x (List.mem_cons_self _ _)
    have hxs : ∀ c ∈ xs, 1 < c.stage := fun c hc => h c (List.mem_cons_of_mem _ hc)
    cases x <;> simp [Call.stage] at hx <;> simp [addServiceCalls, ih hxs]

theorem addDependencyCalls_later (cs : List Call) (h : ∀ c ∈ cs, 3 < c.stage) :
    addDependencyCalls cs = [] := by
  induction cs with
  | nil => rfl
  | cons x xs ih =>
    have hx := h x (List.mem_cons_self _ _)
    have hxs : ∀ c ∈ xs, 3 < c.stage := fun c hc => h c (List.mem_cons_of_mem _ hc)
    cases x <;> simp [Call.stage] at hx <;> simp [addDependencyCalls, ih hxs]

theorem stepAdd_ok (eng : Engine) (cfg : ConfigFile) (name : String) (hist c1 : List Call)
    (h : stepAdd eng cfg name hist = (c1, none)) :
    ∃ b a, svcOpt cfg name "binary" true = .ok b ∧ svcOpt cfg name "args" false = .ok a ∧
      eng.AddService hist name b = none ∧ c1 = [.AddService name b, .AddArgs name a] := by
  unfold stepAdd at h
  cases hb : svcOpt cfg name "binary" true with
  | error f => simp [hb] at h
  | ok binary =>
    cases ha : svcOpt cfg name "args" false with
    | error f => simp [hb, ha] at h
    | ok args =>
      cases he : eng.AddService hist name binary with
      | some err => simp [hb, ha, he] at h
      | none =>
        simp only [hb, ha, he, Prod.mk.injEq, and_true] at h
        exact ⟨binary, args, rfl, rfl, he, h.symm⟩

theorem stepDependency_ok (cfg : ConfigFile) (name : String) (hist c3 : List Call)
    (h : stepDependency cfg name hist = (c3, none)) :
    ∃ d, svcOpt cfg name "dependency" false = .ok d ∧
      c3 = if d ≠ "" then [.AddDependency name d] else [] := by
  unfold stepDependency at h
  cases hd : svcOpt cfg name "dependency" false with
  | error f => simp [hd] at h
  | ok dep =>
    simp only [hd] at h
    refine ⟨dep, rfl, ?_⟩
    split at h
    · next hne =>
      simp only [Prod.mk.injEq, and_true] at h
      rw [if_pos hne]; exact h.symm
    · next hne =>
      simp only [Prod.mk.injEq, and_true] at h
      rw [if_neg hne]; exact h.symm

theorem serviceSection_ok (pd : String → Except String Int) (eng : Engine)
    (cfg : ConfigFile) (name : String) (hist cs : List Call)
    (h : serviceSection pd eng cfg name hist = (cs, none)) :
    ∃ b a d rest, svcOpt cfg name "binary" true = .ok b ∧
      svcOpt cfg name "args" false = .ok a ∧
      svcOpt cfg name "dependency" false = .ok d ∧
      cs = [.AddService name b, .AddArgs name a] ++
        (if d ≠ "" then [.AddDependency name d] else []) ++ rest ∧
      ∀ c ∈ rest, 3 < c.stage := by
  unfold serviceSection at h
  obtain ⟨c1, c2, e1, e2, rfl⟩ := andThen_none _ _ hist cs h
  obtain ⟨c3, c4, e3, e4, rfl⟩ := andThen_none _ _ (hist ++ c1) c2 e2
  obtain ⟨b, a, hb, ha, _, rfl⟩ := stepAdd_ok eng cfg name hist c1 e1
  obtain ⟨d, hd, rfl⟩ := stepDependency_ok cfg name _ c3 e3
  refine ⟨b, a, d, c4, hb, ha, hd, by simp, ?_⟩
  intro c hc
  exact ((afterAdd_within pd eng cfg name _ c4 none e4).1 c hc).2.1

theorem optionValue_binary (cfg : ConfigFile) (name b : String)
    (h : svcOpt cfg name "binary" true = .ok b) : optionValue cfg name "binary" = b := by
  obtain ⟨_, hg, _⟩ := svcOpt_required_ok cfg name "binary" b h
  simp [optionValue, hg]

theorem serviceSection_addServiceCalls (pd : String → Except String Int) (eng : Engine)
    (cfg : ConfigFile) (name : String) (hist cs : List Call)
    (h : serviceSection pd eng cfg name hist = (cs, none)) :
    addServiceCalls cs = [(name, optionValue cfg name "binary")] := by
  obtain ⟨b, a, d, rest, hb, _, _, rfl, hrest⟩ := serviceSection_ok pd eng cfg name hist cs h
  have hr : addServiceCalls rest = [] :=
    addServiceCalls_later rest (fun c hc => by have := hrest c hc; omega)
  rw [addServiceCalls_append, addServiceCalls_append, hr, optionValue_binary cfg name b hb]
  by_cases hd : d = "" <;> simp [hd, addServiceCalls]

theorem serviceSection_addDependencyCalls (pd : String → Except String Int) (eng : Engine)
    (cfg : ConfigFile) (name : String) (hist cs : List Call)
    (h : serviceSection pd eng cfg name hist = (cs, none)) :
    ∃ d, svcOpt cfg name "dependency" false = .ok d ∧
      addDependencyCalls cs = if d ≠ "" then [(name, d)] else [] := by
  obtain ⟨b, a, d, rest, _, _, hd, rfl, hrest⟩ := serviceSection_ok pd eng cfg name hist cs h
  refine ⟨d, hd, ?_⟩
  rw [addDependencyCalls_append, addDependencyCalls_append,
    addDependencyCalls_later rest hrest]
  by_cases hd : d = "" <;> simp [hd, addDependencyCalls]

theorem mem_of_addDependencyCalls (cs : List Call) (n d : String)
    (h : (n, d) ∈ addDependencyCalls cs) : Call.AddDependency n d ∈ cs := by
  induction cs with
  | nil => simp [addDependencyCalls] at h
  | cons x xs ih =>
    cases x <;> simp only [addDependencyCalls, List.mem_cons, Prod.mk.injEq] at h
    case AddDependency n' d' =>
      rcases h with ⟨rfl, rfl⟩ | h
      · exact List.mem_cons_self _ _
      · exact List.mem_cons_of_mem _ (ih h)
    all_goals exact List.mem_cons_of_mem _ (ih h)

theorem loadSections_addServiceCalls (pd : String → Except String Int) (eng : Engine)
    (cfg : ConfigFile) (names : List String) (hist cs : List Call)
    (h : loadSections pd eng cfg names hist = (cs, none)) :
    addServiceCalls cs =
      (names.filter (fun n => decide (n ≠ "default"))).map
        (fun n => (n, optionValue cfg n "binary")) := by
  induction names generalizing hist cs with
  | nil =>
    simp only [loadSections, Prod.mk.injEq, and_true] at h
    subst h; rfl
  | cons n rest ih =>
    by_cases hn : n = "default"
    · subst hn
      rw [loadSections_default] at h
      simpa using ih hist cs h
    · rw [loadSections_service pd eng cfg n rest hist hn] at h
      obtain ⟨c1, c2, e1, e2, rfl⟩ := andThen_none _ _ hist cs h
      rw [addServiceCalls_append, serviceSection_addServiceCalls pd eng cfg n hist c1 e1,
        ih (hist ++ c1) c2 e2]
      simp [hn]

theorem loadSections_has_dependency (pd : String → Except String Int) (eng : Engine)
    (cfg : ConfigFile) (name X : String) (hnd : name ≠ "default")
    (hdep : svcOpt cfg name "dependency" false = .ok X) (hX : X ≠ "")
    (names : List String) (hin : name ∈ names) (hist cs : List Call)
    (h : loadSections pd eng cfg names hist = (cs, none)) :
    Call.AddDependency name X ∈ cs := by
  induction names generalizing hist cs with
  | nil => simp at hin
  | cons n rest ih =>
    by_cases hn : n = "default"
    · subst hn
      rw [loadSections_default] at h
      have hin' : name ∈ rest := by
        rcases List.mem_cons.mp hin with h' | h'
        · exact absurd h' hnd
        · exact h'
      exact ih hin' hist cs h
    · rw [loadSections_service pd eng cfg n rest hist hn] at h
      obtain ⟨c1, c2, e1, e2, rfl⟩ := andThen_none _ _ hist cs h
      rcases List.mem_cons.mp hin with h' | h'
      · subst h'
        obtain ⟨d, hd, hc⟩ := serviceSection_addDependencyCalls pd eng cfg name hist c1 e1
        rw [hdep] at hd
        simp only [Except.ok.injEq] at hd
        subst hd
        rw [if_pos hX] at hc
        exact List.mem_append_left _
          (mem_of_addDependencyCalls c1 name X (by rw [hc]; exact List.mem_cons_self _ _))
      · exact List.mem_append_right _ (ih h' (hist ++ c1) c2 e2)

/-! ## `SetPriority` is only called with a parsed value -/

theorem serviceSection_missing_binary (pd : String → Except String Int) (eng : Engine)
    (cfg : ConfigFile) (name : String)
    (hbin : cfg.HasOption name "binary" = false ∨ cfg.GetString name "binary" = .ok "")
    (hist : List Call) :
    serviceSection pd eng cfg name hist = ([], some (.missingOption name "binary")) := by
  unfold serviceSection
  apply andThen_of_some
  simp [stepAdd, svcOpt_missing cfg name "binary" hbin]

/-- C3, the claim as stated fails: in a configuration with two service
sections that both lack `binary`, the load ends with the missing-option error
of the first one, so the error does not name the second; and when an earlier
section has a `priority` that does not parse, the load ends with that error
and no missing-option error is raised at all. -/
theorem second_missing_binary_not_named :
    ("b" ∈ twoWithoutBinary.GetSections ∧ "b" ≠ "default" ∧
      twoWithoutBinary.HasOption "b" "binary" = false ∧
      watchdogrun secondsOnly permissiveEngine none (.ok twoWithoutBinary) =
        ([], .fatal (.missingOption "a" "binary")) ∧
      (watchdogrun secondsOnly permissiveEngine none (.ok twoWithoutBinary)).2 ≠
        .fatal (.missingOption "b" "binary")) ∧
    ("b" ∈ badPriorityThenNoBinary.GetSections ∧
      badPriorityThenNoBinary.HasOption "b" "binary" = false ∧
      watchdogrun secondsOnly permissiveEngine none (.ok badPriorityThenNoBinary) =
        ([.AddService "a" "/bin/a", .AddArgs "a" ""],
          .fatal (.invalidPriority "a" "high" .ErrSyntax))) := by
  decide

/-- C3, amended: for every configuration that contains a service section
(other than "default") whose `binary` option is absent or empty, loading in
`watchdogrun` fails and `Walk` is never invoked; when every section before
that one has loaded without a fatal error, the load fails with the
missing-option error that names that section and the option `binary`, and no
engine call is made for that section. -/
theorem missing_binary_is_fatal (pd : String → Except String Int) (eng : Engine)
    (cfg : ConfigFile) (name : String) (hin : name ∈ cfg.GetSections)
    (hnd : name ≠ "default")
    (hbin : cfg.HasOption name "binary" = false ∨ cfg.GetString name "binary" = .ok "") :
    (∃ f, (watchdogrun pd eng none (.ok cfg)).2 = .fatal f) ∧
    Call.Walk ∉ (watchdogrun pd eng none (.ok cfg)).1 ∧
    (∀ pre post done, cfg.GetSections = pre ++ name :: post →
      loadSections pd eng cfg pre [] = (done, none) →
      watchdogrun pd eng none (.ok cfg) = (done, .fatal (.missingOption name "binary"))) := by
  have hfail : ∀ hist cs, serviceSection pd eng cfg name hist ≠ (cs, none) := by
    intro hist cs h
    rw [serviceSection_missing_binary pd eng cfg name hbin hist] at h
    simp at h
  obtain ⟨cs, f, hl⟩ := loadSections_fails pd eng cfg name hnd hfail cfg.GetSections hin []
  refine ⟨⟨f, ?_⟩, ?_, ?_⟩
  · rw [watchdogrun_fatal pd eng cfg cs f hl]
  · rw [watchdogrun_fatal pd eng cfg cs f hl]
    exact loadSections_no_walk pd eng cfg _ _ cs _ hl
  · intro pre post done hsec hpre
    apply watchdogrun_fatal
    rw [hsec, loadSections_append_none pd eng cfg pre (name :: post) [] done hpre,
      loadSections_service pd eng cfg name post _ hnd,
      andThen_of_some _ _ _ [] _ (serviceSection_missing_binary pd eng cfg name hbin _)]
    simp

/-- The first of two sections without `binary` is the one reported. -/
theorem missing_binary_is_fatal_witness :
    watchdogrun secondsOnly permissiveEngine none (.ok twoWithoutBinary) =
      ([], .fatal (.missingOption "a" "binary")) :=
  (missing_binary_is_fatal secondsOnly permissiveEngine twoWithoutBinary "a"
    (by decide) (by decide) (Or.inl (by decide))).2.2 [] ["b"] [] (by decide) (by decide)

theorem svcOpt_unreadable (cfg : ConfigFile) (name option err : String) (required : Bool)
    (hh : cfg.HasOption name option = true) (hg : cfg.GetString name option = .error err) :
    svcOpt cfg name option required = .error (.getOption option name err) := by
  simp [svcOpt, cfgOpt, hh, hg]

theorem svcOpt_required_present (cfg : ConfigFile) (name option b : String)
    (hh : cfg.HasOption name option = true) (hg : cfg.GetString name option = .ok b)
    (hb : b ≠ "") : svcOpt cfg name option true = .ok b := by
  simp [svcOpt, cfgOpt, hh, hg, hb]

theorem svcOpt_readable (cfg : ConfigFile) (name option : String)
    (h : cfg.HasOption name option = true → ∃ a, cfg.GetString name option = .ok a) :
    ∃ a, svcOpt cfg name option false = .ok a := by
  cases hh : cfg.HasOption name option
  · exact ⟨"", svcOpt_absent cfg name option hh⟩
  · obtain ⟨a, ha⟩ := h hh
    exact ⟨a, svcOpt_present cfg name option a hh ha⟩

theorem watchdogrun_section_fatal (pd : String → Except String Int) (eng : Engine)
    (cfg : ConfigFile) (pre post : List String) (name : String) (done calls : List Call)
    (f : Fatal) (hsec : cfg.GetSections = pre ++ name :: post) (hnd : name ≠ "default")
    (hpre : loadSections pd eng cfg pre [] = (done, none))
    (hsvc : serviceSection pd eng cfg name done = (calls, some f)) :
    watchdogrun pd eng none (.ok cfg) = (done ++ calls, .fatal f) := by
  apply watchdogrun_fatal
  rw [hsec, loadSections_append_none pd eng cfg pre (name :: post) [] done hpre,
    loadSections_service pd eng cfg name post _ hnd]
  simp only [List.nil_append]
  rw [andThen_of_some _ _ done calls f hsvc]

theorem section_fatal_add (pd : String → Except String Int) (eng : Engine)
    (cfg : ConfigFile) (name : String) (done c1 : List Call) (f : Fatal)
    (h1 : stepAdd eng cfg name done = (c1, some f)) :
    serviceSection pd eng cfg name done = (c1, some f) := by
  unfold serviceSection
  exact andThen_of_some _ _ done c1 f h1

theorem section_fatal_dependency (pd : String → Except String Int) (eng : Engine)
    (cfg : ConfigFile) (name : String) (done c1 c3 : List Call) (f : Fatal)
    (h1 : stepAdd eng cfg name done = (c1, none))
    (h3 : stepDependency cfg name (done ++ c1) = (c3, some f)) :
    serviceSection pd eng cfg name done = (c1 ++ c3, some f) := by
  unfold serviceSection
  rw [andThen_of_none _ _ done c1 h1, andThen_of_some _ _ (done ++ c1) c3 f h3]

theorem section_fatal_priority (pd : String → Except String Int) (eng : Engine)
    (cfg : ConfigFile) (name : String) (done c1 c3 c4 : List Call) (f : Fatal)
    (h1 : stepAdd eng cfg name done = (c1, none))
    (h3 : stepDependency cfg name (done ++ c1) = (c3, none))
    (h4 : stepPriority eng cfg name (done ++ c1 ++ c3) = (c4, some f)) :
    serviceSection pd eng cfg name done = (c1 ++ c3 ++ c4, some f) := by
  unfold serviceSection
  rw [andThen_of_none _ _ done c1 h1, andThen_of_none _ _ (done ++ c1) c3 h3,
    andThen_of_some _ _ (done ++ c1 ++ c3) c4 f h4]
  simp

theorem section_fatal_termTimeout (pd : String → Except String Int) (eng : Engine)
    (cfg : ConfigFile) (name : String) (done c1 c3 c4 c5 : List Call) (f : Fatal)
    (h1 : stepAdd eng cfg name done = (c1, none))
    (h3 : stepDependency cfg name (done ++ c1) = (c3, none))
    (h4 : stepPriority eng cfg name (done ++ c1 ++ c3) = (c4, none))
    (h5 : stepTermTimeout pd cfg name (done ++ c1 ++ c3 ++ c4) = (c5, some f)) :
    serviceSection pd eng cfg name done = (c1 ++ c3 ++ c4 ++ c5, some f) := by
  unfold serviceSection
  rw [andThen_of_none _ _ done c1 h1, andThen_of_none _ _ (done ++ c1) c3 h3,
    andThen_of_none _ _ (done ++ c1 ++ c3) c4 h4,
    andThen_of_some _ _ (done ++ c1 ++ c3 ++ c4) c5 f h5]
  simp

theorem section_fatal_user (pd : String → Except String Int) (eng : Engine)
    (cfg : ConfigFile) (name : String) (done c1 c3 c4 c5 c6 : List Call) (f : Fatal)
    (h1 : stepAdd eng cfg name done = (c1, none))
    (h3 : stepDependency cfg name (done ++ c1) = (c3, none))
    (h4 : stepPriority eng cfg name (done ++ c1 ++ c3) = (c4, none))
    (h5 : stepTermTimeout pd cfg name (done ++ c1 ++ c3 ++ c4) = (c5, none))
    (h6 : stepUser eng cfg name (done ++ c1 ++ c3 ++ c4 ++ c5) = (c6, some f)) :
    serviceSection pd eng cfg name done = (c1 ++ c3 ++ c4 ++ c5 ++ c6, some f) := by
  unfold serviceSection
  rw [andThen_of_none _ _ done c1 h1, andThen_of_none _ _ (done ++ c1) c3 h3,
    andThen_of_none _ _ (done ++ c1 ++ c3) c4 h4,
    andThen_of_none _ _ (done ++ c1 ++ c3 ++ c4) c5 h5, h6]
  simp

/-- C7: whatever the configuration and the engine do, when a fatal condition
arises while the sections are built (a missing `binary`, an error of
`AddService`, a `priority` or `term_timeout` that does not parse, an error of
`SetPriority` or `SetUser`, an error of the config source), the load stops
there: the calls made are those of the sections loaded before, followed by
the calls of the failing section up to the failing step, none of a later
stage, none for a later section, and `Walk` is never invoked; and a loop body
that stops with a fatal error after the sections before it loaded ends the
run with exactly those calls. An error of `ReadConfigFile` or of `os.Create`
stops the run before any engine call. Each of the conditions, when the load
gets to it, does end the run with its fatal error: the last part states this
condition by condition, in the order of the loop body, with the calls made
up to that point. -/
theorem fatal_aborts_load (pd : String → Except String Int) (eng : Engine) :
    (∀ err, watchdogrun pd eng none (.error err) = ([], .fatal (.readConfig err))) ∧
    (∀ cfg f, (watchdogrun pd eng none (.ok cfg)).2 = .fatal f →
      Call.Walk ∉ (watchdogrun pd eng none (.ok cfg)).1 ∧
      ∃ pre name post done calls, cfg.GetSections = pre ++ name :: post ∧
        name ≠ "default" ∧
        loadSections pd eng cfg pre [] = (done, none) ∧
        serviceSection pd eng cfg name done = (calls, some f) ∧
        (watchdogrun pd eng none (.ok cfg)).1 = done ++ calls ∧
        (∀ c ∈ done, ∃ n ∈ pre, c.service = some n) ∧
        (∀ c ∈ calls, c.service = some name ∧ c.stage ≤ f.stage)) ∧
    (∀ cfg pre name post done calls f, cfg.GetSections = pre ++ name :: post →
      name ≠ "default" →
      loadSections pd eng cfg pre [] = (done, none) →
      serviceSection pd eng cfg name done = (calls, some f) →
      watchdogrun pd eng none (.ok cfg) = (done ++ calls, .fatal f)) ∧
    (∀ err cfgRes, watchdogrun pd eng (some err) cfgRes = ([], .fatal (.createLog err))) ∧
    (∀ cfg pre name post done, cfg.GetSections = pre ++ name :: post →
      name ≠ "default" →
      loadSections pd eng cfg pre [] = (done, none) →
      ((cfg.HasOption name "binary" = false ∨ cfg.GetString name "binary" = .ok "") →
        watchdogrun pd eng none (.ok cfg) = (done, .fatal (.missingOption name "binary"))) ∧
      (∀ err, cfg.HasOption name "binary" = true →
        cfg.GetString name "binary" = .error err →
        watchdogrun pd eng none (.ok cfg) = (done, .fatal (.getOption "binary" name err))) ∧
      (∀ b err, cfg.HasOption name "binary" = true → cfg.GetString name "binary" = .ok b →
        b ≠ "" → cfg.HasOption name "args" = true →
        cfg.GetString name "args" = .error err →
        watchdogrun pd eng none (.ok cfg) = (done, .fatal (.getOption "args" name err))) ∧
      (∀ b err, cfg.HasOption name "binary" = true → cfg.GetString name "binary" = .ok b →
        b ≠ "" →
        (cfg.HasOption name "args" = true → ∃ a, cfg.GetString name "args" = .ok a) →
        eng.AddService done name b = some err →
        watchdogrun pd eng none (.ok cfg) =
          (done ++ [.AddService name b], .fatal (.addService name err))) ∧
      (∀ c1, stepAdd eng cfg name done = (c1, none) →
        (∀ err, cfg.HasOption name "dependency" = true →
          cfg.GetString name "dependency" = .error err →
          watchdogrun pd eng none (.ok cfg) =
            (done ++ c1, .fatal (.getOption "dependency" name err))) ∧
        (∀ c3, stepDependency cfg name (done ++ c1) = (c3, none) →
          (∀ err, cfg.HasOption name "priority" = true →
            cfg.GetString name "priority" = .error err →
            watchdogrun pd eng none (.ok cfg) =
              (done ++ c1 ++ c3, .fatal (.getOption "priority" name err))) ∧
          (∀ opt e, cfg.HasOption name "priority" = true →
            cfg.GetString name "priority" = .ok opt → opt ≠ "" → Atoi opt = .error e →
            watchdogrun pd eng none (.ok cfg) =
              (done ++ c1 ++ c3, .fatal (.invalidPriority name opt e))) ∧
          (∀ opt prio err, cfg.HasOption name "priority" = true →
            cfg.GetString name "priority" = .ok opt → opt ≠ "" → Atoi opt = .ok prio →
            eng.SetPriority (done ++ c1 ++ c3) name prio = some err →
            watchdogrun pd eng none (.ok cfg) =
              (done ++ c1 ++ c3 ++ [.SetPriority name prio],
                .fatal (.setPriority name err))) ∧
          (∀ c4, stepPriority eng cfg name (done ++ c1 ++ c3) = (c4, none) →
            (∀ err, cfg.HasOption name "term_timeout" = true →
              cfg.GetString name "term_timeout" = .error err →
              watchdogrun pd eng none (.ok cfg) =
                (done ++ c1 ++ c3 ++ c4, .fatal (.getOption "term_timeout" name err))) ∧
            (∀ opt err, cfg.HasOption name "term_timeout" = true →
              cfg.GetString name "term_timeout" = .ok opt → opt ≠ "" →
              pd opt = .error err →
              watchdogrun pd eng none (.ok cfg) =
                (done ++ c1 ++ c3 ++ c4, .fatal (.invalidTermTimeout name opt err))) ∧
            (∀ c5, stepTermTimeout pd cfg name (done ++ c1 ++ c3 ++ c4) = (c5, none) →
              (∀ err, cfg.HasOption name "user" = true →
                cfg.GetString name "user" = .error err →
                watchdogrun pd eng none (.ok cfg) =
                  (done ++ c1 ++ c3 ++ c4 ++ c5, .fatal (.getOption "user" name err))) ∧
              (∀ user err, cfg.HasOption name "user" = true →
                cfg.GetString name "user" = .ok user → user ≠ "" →
                eng.SetUser (done ++ c1 ++ c3 ++ c4 ++ c5) name user = some err →
                watchdogrun pd eng none (.ok cfg) =
                  (done ++ c1 ++ c3 ++ c4 ++ c5 ++ [.SetUser name user],
                    .fatal (.setUser name err)))))))) := by
  refine ⟨fun err => rfl, ?_, ?_, fun err cfgRes => rfl, ?_⟩
  · intro cfg f h
    have hl := watchdogrun_of_fatal pd eng cfg f h
    refine ⟨loadSections_no_walk pd eng cfg _ _ _ _ hl, ?_⟩
    obtain ⟨pre, name, post, done, calls, e1, e2, e3, e4, e5⟩ :=
      loadSections_fatal_split pd eng cfg _ _ _ f hl
    simp only [List.nil_append] at e4
    refine ⟨pre, name, post, done, calls, e1, e2, e3, e4, e5, ?_, ?_⟩
    · intro c hc
      obtain ⟨n, hn, _, hs⟩ := loadSections_calls pd eng cfg pre [] done none e3 c hc
      exact ⟨n, hn, hs⟩
    · intro c hc
      obtain ⟨A, F⟩ := serviceSection_within pd eng cfg name done calls (some f) e4
      exact ⟨(A c hc).1, (F f rfl).2.2 c hc⟩
  · intro cfg pre name post done calls f hsec hnd hpre hsvc
    exact watchdogrun_section_fatal pd eng cfg pre post name done calls f hsec hnd hpre hsvc
  · intro cfg pre name post done hsec hnd hpre
    have run := fun calls f (h : serviceSection pd eng cfg name done = (calls, some f)) =>
      watchdogrun_section_fatal pd eng cfg pre post name done calls f hsec hnd hpre h
    refine ⟨?_, ?_, ?_, ?_, ?_⟩
    · intro hbin
      have h := run [] _ (serviceSection_missing_binary pd eng cfg name hbin done)
      simpa using h
    · intro err hh hg
      have hstep : stepAdd eng cfg name done = ([], some (.getOption "binary" name err)) := by
        unfold stepAdd
        rw [svcOpt_unreadable cfg name "binary" err true hh hg]
      have h := run [] _ (section_fatal_add pd eng cfg name done [] _ hstep)
      simpa using h
    · intro b err hh hg hb hah hag
      have hstep : stepAdd eng cfg name done = ([], some (.getOption "args" name err)) := by
        unfold stepAdd
        rw [svcOpt_required_present cfg name "binary" b hh hg hb,
          svcOpt_unreadable cfg name "args" err false hah hag]
      have h := run [] _ (section_fatal_add pd eng cfg name done [] _ hstep)
      simpa using h
    · intro b err hh hg hb hargs hadd
      obtain ⟨a, ha⟩ := svcOpt_readable cfg name "args" hargs
      have hstep : stepAdd eng cfg name done =
          ([.AddService name b], some (.addService name err)) := by
        unfold stepAdd
        rw [svcOpt_required_present cfg name "binary" b hh hg hb, ha]
        simp only [hadd]
      exact run _ _ (section_fatal_add pd eng cfg name done _ _ hstep)
    · intro c1 h1
      refine ⟨?_, ?_⟩
      · intro err hh hg
        have hstep : stepDependency cfg name (done ++ c1) =
            ([], some (.getOption "dependency" name err)) := by
          unfold stepDependency
          rw [svcOpt_unreadable cfg name "dependency" err false hh hg]
        have h := run _ _ (section_fatal_dependency pd eng cfg name done c1 [] _ h1 hstep)
        simpa using h
      · intro c3 h3
        refine ⟨?_, ?_, ?_, ?_⟩
        · intro err hh hg
          have hstep : stepPriority eng cfg name (done ++ c1 ++ c3) =
              ([], some (.getOption "priority" name err)) := by
            unfold stepPriority
            rw [svcOpt_unreadable cfg name "priority" err false hh hg]
          have h := run _ _
            (section_fatal_priority pd eng cfg name done c1 c3 [] _ h1 h3 hstep)
          simpa using h
        · intro opt e hh hg hne hp
          have hstep : stepPriority eng cfg name (done ++ c1 ++ c3) =
              ([], some (.invalidPriority name opt e)) := by
            unfold stepPriority
            rw [svcOpt_present cfg name "priority" opt hh hg]
            simp only [if_pos hne, hp]
          have h := run _ _
            (section_fatal_priority pd eng cfg name done c1 c3 [] _ h1 h3 hstep)
          simpa using h
        · intro opt prio err hh hg hne hp hset
          have hstep : stepPriority eng cfg name (done ++ c1 ++ c3) =
              ([.SetPriority name prio], some (.setPriority name err)) := by
            unfold stepPriority
            rw [svcOpt_present cfg name "priority" opt hh hg]
            simp only [if_pos hne, hp, hset]
          have h := run _ _
            (section_fatal_priority pd eng cfg name done c1 c3 _ _ h1 h3 hstep)
          rw [h]
          simp only [List.append_assoc]
        · intro c4 h4
          refine ⟨?_, ?_, ?_⟩
          · intro err hh hg
            have hstep : stepTermTimeout pd cfg name (done ++ c1 ++ c3 ++ c4) =
                ([], some (.getOption "term_timeout" name err)) := by
              unfold stepTermTimeout
              rw [svcOpt_unreadable cfg name "term_timeout" err false hh hg]
            have h := run _ _
              (section_fatal_termTimeout pd eng cfg name done c1 c3 c4 [] _ h1 h3 h4 hstep)
            rw [h]
            simp only [List.append_assoc, List.append_nil]
          · intro opt err hh hg hne hp
            have hstep : stepTermTimeout pd cfg name (done ++ c1 ++ c3 ++ c4) =
                ([], some (.invalidTermTimeout name opt err)) := by
              unfold stepTermTimeout
              rw [svcOpt_present cfg name "term_timeout" opt hh hg]
              simp only [if_pos hne, hp]
            have h := run _ _
              (section_fatal_termTimeout pd eng cfg name done c1 c3 c4 [] _ h1 h3 h4 hstep)
            rw [h]
            simp only [List.append_assoc, List.append_nil]
          · intro c5 h5
            refine ⟨?_, ?_⟩
            · intro err hh hg
              have hstep : stepUser eng cfg name (done ++ c1 ++ c3 ++ c4 ++ c5) =
                  ([], some (.getOption "user" name err)) := by
                unfold stepUser
                rw [svcOpt_unreadable cfg name "user" err false hh hg]
              have h := run _ _
                (section_fatal_user pd eng cfg name done c1 c3 c4 c5 [] _ h1 h3 h4 h5 hstep)
              rw [h]
              simp only [List.append_assoc, List.append_nil]
            · intro user err hh hg hne hset
              have hstep : stepUser eng cfg name (done ++ c1 ++ c3 ++ c4 ++ c5) =
                  ([.SetUser name user], some (.setUser name err)) := by
                unfold stepUser
                rw [svcOpt_present cfg name "user" user hh hg]
                simp only [if_pos hne, hset]
              have h := run _ _
                (section_fatal_user pd eng cfg name done c1 c3 c4 c5 _ _ h1 h3 h4 h5 hstep)
              rw [h]
              simp only [List.append_assoc]

/-- The run that stops at `priority = high` never reaches `Walk`; and with an
engine that knows no user, the section that asks for one ends the run at its
`SetUser` call, before the next section. -/
theorem fatal_aborts_load_witness :
    Call.Walk ∉ (watchdogrun secondsOnly permissiveEngine none (.ok badPriority)).1 ∧
    watchdogrun secondsOnly noUserEngine none (.ok withUser) =
      ([] ++ [.AddService "a" "/bin/a", .AddArgs "a" ""] ++ [] ++ [.SetPriority "a" 5] ++
          [.SetTermTimeout "a" 30000000000] ++ [.SetUser "a" "nobody"],
        .fatal (.setUser "a" "unknown user")) :=
  ⟨((fatal_aborts_load secondsOnly permissiveEngine).2.1 badPriority
      (.invalidPriority "a" "high" .ErrSyntax) (by decide)).1,
    ((((((fatal_aborts_load secondsOnly noUserEngine).2.2.2.2 withUser [] "a" ["b"] []
      (by decide) (by decide) (by decide)).2.2.2.2
      [.AddService "a" "/bin/a", .AddArgs "a" ""] (by decide)).2
      [] (by decide)).2.2.2 [.SetPriority "a" 5] (by decide)).2.2
      [.SetTermTimeout "a" 30000000000] (by decide)).2 "nobody" "unknown user"
      (by decide) (by decide) (by decide) (by decide)⟩

/-! ## Loads that succeed -/

theorem prefix_of_section_loaded (pd : String → Except String Int) (eng : Engine)
    (cfg : ConfigFile) (pre post : List String) (name : String) (done calls : List Call)
    (hsec : cfg.GetSections = pre ++ name :: post) (hnd : name ≠ "default")
    (hpre : loadSections pd eng cfg pre [] = (done, none))
    (hsvc : serviceSection pd eng cfg name done = (calls, none)) :
    ∃ rest, (watchdogrun pd eng none (.ok cfg)).1 = done ++ calls ++ rest := by
  have hl : loadSections pd eng cfg cfg.GetSections [] =
      (done ++ (calls ++ (loadSections pd eng cfg post (done ++ calls)).1),
        (loadSections pd eng cfg post (done ++ calls)).2) := by
    rw [hsec, loadSections_append_none pd eng cfg pre (name :: post) [] done hpre,
      loadSections_service pd eng cfg name post _ hnd]
    simp only [List.nil_append]
    rw [andThen_of_none _ _ done calls hsvc]
  rcases hr : (loadSections pd eng cfg post (done ++ calls)).2 with _ | f
  · rw [hr] at hl
    rw [watchdogrun_returned pd eng cfg _ hl]
    exact ⟨(loadSections pd eng cfg post (done ++ calls)).1 ++ [.Walk], by simp⟩
  · rw [hr] at hl
    rw [watchdogrun_fatal pd eng cfg _ f hl]
    exact ⟨(loadSections pd eng cfg post (done ++ calls)).1, by simp⟩

/-- C5: for every service section that loads (the sections before it loaded
and its own loop body ended without a fatal error), the calls made for it are
part of the run, and among them: with no `dependency` option there is no
`AddDependency` call; with `dependency = X` for a non-empty `X` there is
exactly one `AddDependency` call, on that section, with `X` unchanged. -/
theorem dependency_attached_verbatim (pd : String → Except String Int) (eng : Engine)
    (cfg : ConfigFile) (pre post : List String) (name : String) (done calls : List Call)
    (hsec : cfg.GetSections = pre ++ name :: post) (hnd : name ≠ "default")
    (hpre : loadSections pd eng cfg pre [] = (done, none))
    (hsvc : serviceSection pd eng cfg name done = (calls, none)) :
    (∃ rest, (watchdogrun pd eng none (.ok cfg)).1 = done ++ calls ++ rest) ∧
    (cfg.HasOption name "dependency" = false → addDependencyCalls calls = []) ∧
    (∀ X, cfg.HasOption name "dependency" = true →
      cfg.GetString name "dependency" = .ok X → X ≠ "" →
      addDependencyCalls calls = [(name, X)]) := by
  obtain ⟨d, hd, hc⟩ := serviceSection_addDependencyCalls pd eng cfg name done calls hsvc
  refine ⟨prefix_of_section_loaded pd eng cfg pre post name done calls hsec hnd hpre hsvc,
    ?_, ?_⟩
  · intro hno
    rw [svcOpt_absent cfg name "dependency" hno] at hd
    simp only [Except.ok.injEq] at hd
    subst hd
    simpa using hc
  · intro X hhas hget hX
    rw [svcOpt_present cfg name "dependency" X hhas hget] at hd
    simp only [Except.ok.injEq] at hd
    subst hd
    rw [hc, if_pos hX]

/-- Scenario B: the calls for `api` hold the one dependency "db". -/
theorem dependency_attached_verbatim_witness :
    addDependencyCalls [.AddService "api" "/bin/api", .AddArgs "api" "",
      .AddDependency "api" "db"] = [("api", "db")] :=
  (dependency_attached_verbatim secondsOnly permissiveEngine scenarioB [] ["db"] "api" []
    [.AddService "api" "/bin/api", .AddArgs "api" "", .AddDependency "api" "db"]
    (by decide) (by decide) (by decide) (by decide)).2.2 "db" (by decide) (by decide)
    (by decide)

/-- C6: when loading meets no fatal condition, the `AddService` calls of
`watchdogrun` are the sections of the configuration in their order with
every "default" left out, each with the section name and the `binary` value
of that section; `Walk` is invoked once, as the last call, after the section
loop. Whatever the outcome, no `AddService` call is made for "default". -/
theorem addService_in_section_order (pd : String → Except String Int) (eng : Engine)
    (cfg : ConfigFile) :
    (∀ b, Call.AddService "default" b ∉ (watchdogrun pd eng none (.ok cfg)).1) ∧
    ((watchdogrun pd eng none (.ok cfg)).2 = .returned true →
      addServiceCalls (watchdogrun pd eng none (.ok cfg)).1 =
        (cfg.GetSections.filter (fun n => decide (n ≠ "default"))).map
          (fun n => (n, optionValue cfg n "binary")) ∧
      (∃ cs, loadSections pd eng cfg cfg.GetSections [] = (cs, none) ∧
        (watchdogrun pd eng none (.ok cfg)).1 = cs ++ [.Walk] ∧ Call.Walk ∉ cs) ∧
      (watchdogrun pd eng none (.ok cfg)).1.count .Walk = 1) := by
  refine ⟨?_, ?_⟩
  · intro b hb
    rcases hl : loadSections pd eng cfg cfg.GetSections [] with ⟨cs, _ | f⟩
    · rw [watchdogrun_returned pd eng cfg cs hl] at hb
      simp only [List.mem_append, List.mem_singleton, reduceCtorEq, or_false] at hb
      obtain ⟨n, _, h1, h2⟩ := loadSections_calls pd eng cfg _ _ cs _ hl _ hb
      simp only [Call.service, Option.some.injEq] at h2
      exact h1 h2.symm
    · rw [watchdogrun_fatal pd eng cfg cs f hl] at hb
      obtain ⟨n, _, h1, h2⟩ := loadSections_calls pd eng cfg _ _ cs _ hl _ hb
      simp only [Call.service, Option.some.injEq] at h2
      exact h1 h2.symm
  · intro h
    obtain ⟨cs, hl, hr⟩ := watchdogrun_of_returned pd eng cfg true h
    have hw := loadSections_no_walk pd eng cfg _ _ cs _ hl
    rw [hr]
    refine ⟨?_, ⟨cs, hl, rfl, hw⟩, ?_⟩
    · rw [addServiceCalls_append, loadSections_addServiceCalls pd eng cfg _ _ cs hl]
      simp [addServiceCalls]
    · rw [List.count_append, List.count_eq_zero_of_not_mem hw]
      simp

/-- Scenario A: `web` then `db`, and nothing for `default`. -/
theorem addService_in_section_order_witness :
    addServiceCalls (watchdogrun secondsOnly permissiveEngine none (.ok scenarioA)).1 =
      (scenarioA.GetSections.filter (fun n => decide (n ≠ "default"))).map
        (fun n => (n, optionValue scenarioA n "binary")) :=
  ((addService_in_section_order secondsOnly permissiveEngine scenarioA).2 (by decide)).1

/-! ## Dependencies on sections that are not there -/

theorem stepAdd_accepts (eng : Engine) (cfg : ConfigFile) (name b a : String)
    (hacc : eng.acceptsAll) (hb : svcOpt cfg name "binary" true = .ok b)
    (ha : svcOpt cfg name "args" false = .ok a) (hist : List Call) :
    stepAdd eng cfg name hist = ([.AddService name b, .AddArgs name a], none) := by
  simp [stepAdd, hb, ha, hacc.1 hist name b]

theorem stepDependency_accepts (cfg : ConfigFile) (name d : String)
    (hd : svcOpt cfg name "dependency" false = .ok d) (hist : List Call) :
    ∃ c, stepDependency cfg name hist = (c, none) := by
  by_cases he : d = ""
  · exact ⟨[], by simp [stepDependency, hd, he]⟩
  · exact ⟨[.AddDependency name d], by simp [stepDependency, hd, he]⟩

theorem stepPriority_accepts (eng : Engine) (cfg : ConfigFile) (name o : String)
    (hacc : eng.acceptsAll) (ho : svcOpt cfg name "priority" false = .ok o)
    (hv : (match Atoi o with
      | .ok _ => true
      | .error _ => decide (o = "")) = true) (hist : List Call) :
    ∃ c, stepPriority eng cfg name hist = (c, none) := by
  by_cases he : o = ""
  · exact ⟨[], by simp [stepPriority, ho, he]⟩
  · cases hp : Atoi o with
    | error e => simp [hp, he] at hv
    | ok p =>
      exact ⟨[.SetPriority name p], by simp [stepPriority, ho, he, hp, hacc.2.1 hist name p]⟩

theorem stepTermTimeout_accepts (pd : String → Except String Int) (cfg : ConfigFile)
    (name o : String) (ho : svcOpt cfg name "term_timeout" false = .ok o)
    (hv : (match pd o with
      | .ok _ => true
      | .error _ => decide (o = "")) = true) (hist : List Call) :
    ∃ c, stepTermTimeout pd cfg name hist = (c, none) := by
  by_cases he : o = ""
  · exact ⟨[], by simp [stepTermTimeout, ho, he]⟩
  · cases hp : pd o with
    | error e => simp [hp, he] at hv
    | ok t => exact ⟨[.SetTermTimeout name t], by simp [stepTermTimeout, ho, he, hp]⟩

theorem stepUser_accepts (eng : Engine) (cfg : ConfigFile) (name u : String)
    (hacc : eng.acceptsAll) (hu : svcOpt cfg name "user" false = .ok u) (hist : List Call) :
    ∃ c, stepUser eng cfg name hist = (c, none) := by
  by_cases he : u = ""
  · exact ⟨[], by simp [stepUser, hu, he]⟩
  · exact ⟨[.SetUser name u], by simp [stepUser, hu, he, hacc.2.2 hist name u]⟩

theorem andThen_accepts (a b : Step) (ha : ∀ hist, ∃ c, a hist = (c, none))
    (hb : ∀ hist, ∃ c, b hist = (c, none)) (hist : List Call) :
    ∃ c, a.andThen b hist = (c, none) := by
  obtain ⟨c1, e1⟩ := ha hist
  obtain ⟨c2, e2⟩ := hb (hist ++ c1)
  exact ⟨c1 ++ c2, by rw [andThen_of_none a b hist c1 e1, e2]⟩

theorem serviceSection_accepts (pd : String → Except String Int) (eng : Engine)
    (cfg : ConfigFile) (name : String) (hacc : eng.acceptsAll)
    (hv : optionsValid pd cfg name = true) (hist : List Call) :
    ∃ c, serviceSection pd eng cfg name hist = (c, none) := by
  simp only [optionsValid, Bool.and_eq_true] at hv
  obtain ⟨⟨⟨⟨⟨v1, v2⟩, v3⟩, v4⟩, v5⟩, v6⟩ := hv
  cases hb : svcOpt cfg name "binary" true with
  | error f => simp [hb] at v1
  | ok b =>
  cases ha : svcOpt cfg name "args" false with
  | error f => simp [ha] at v2
  | ok a =>
  cases hd : svcOpt cfg name "dependency" false with
  | error f => simp [hd] at v3
  | ok d =>
  cases hp : svcOpt cfg name "priority" false with
  | error f => simp [hp] at v4
  | ok o =>
  cases ht : svcOpt cfg name "term_timeout" false with
  | error f => simp [ht] at v5
  | ok t =>
  cases hu : svcOpt cfg name "user" false with
  | error f => simp [hu] at v6
  | ok u =>
  simp only [hp] at v4
  simp only [ht] at v5
  unfold serviceSection
  exact andThen_accepts _ _
    (fun h => ⟨_, stepAdd_accepts eng cfg name b a hacc hb ha h⟩)
    (andThen_accepts _ _ (stepDependency_accepts cfg name d hd)
      (andThen_accepts _ _ (stepPriority_accepts eng cfg name o hacc hp v4)
        (andThen_accepts _ _ (stepTermTimeout_accepts pd cfg name t ht v5)
          (stepUser_accepts eng cfg name u hacc hu)))) hist

theorem loadSections_accepts (pd : String → Except String Int) (eng : Engine)
    (cfg : ConfigFile) (hacc : eng.acceptsAll) (names : List String)
    (hv : ∀ n ∈ names, n ≠ "default" → optionsValid pd cfg n = true) (hist : List Call) :
    ∃ c, loadSections pd eng cfg names hist = (c, none) := by
  induction names generalizing hist with
  | nil => exact ⟨[], rfl⟩
  | cons n rest ih =>
    have hrest : ∀ m ∈ rest, m ≠ "default" → optionsValid pd cfg m = true :=
      fun m hm => hv m (List.mem_cons_of_mem _ hm)
    by_cases hn : n = "default"
    · subst hn
      rw [loadSections_default]
      exact ih hrest hist
    · rw [loadSections_service pd eng cfg n rest hist hn]
      exact andThen_accepts _ _
        (serviceSection_accepts pd eng cfg n hacc (hv n (List.mem_cons_self _ _) hn))
        (ih hrest) hist

/-- C8, the claim as stated fails: with `api` declaring `dependency = db` and
no `db` section, the load makes the `AddDependency` call and goes on to
`Walk`; no error is raised. -/
theorem missing_dependency_target_loads :
    scenarioBNoDb.HasOption "api" "dependency" = true ∧
    scenarioBNoDb.GetString "api" "dependency" = .ok "db" ∧
    "db" ∉ scenarioBNoDb.GetSections ∧
    watchdogrun secondsOnly permissiveEngine none (.ok scenarioBNoDb) =
      ([.AddService "api" "/bin/api", .AddArgs "api" "", .AddDependency "api" "db", .Walk],
        .returned true) := by
  decide

/-- C8, amended: for every configuration in which a service section declares
`dependency = X` for a non-empty `X`, `watchdogrun` does not check that a
section named `X` exists: whether or not there is one, a load that meets no
fatal condition calls `AddDependency` on that section with `X` and ends with
`Walk`, and the load meets no fatal condition whenever the engine accepts
every call and every service section has options that can be read, a
non-empty `binary`, and a `priority` and `term_timeout` that parse. With the
`db` section present, `api` loads with the dependency "db". -/
theorem dependency_target_not_checked (pd : String → Except String Int) (eng : Engine)
    (cfg : ConfigFile) (name X : String) (hin : name ∈ cfg.GetSections)
    (hnd : name ≠ "default") (hhas : cfg.HasOption name "dependency" = true)
    (hget : cfg.GetString name "dependency" = .ok X) (hX : X ≠ "") :
    ((watchdogrun pd eng none (.ok cfg)).2 = .returned true →
      Call.AddDependency name X ∈ (watchdogrun pd eng none (.ok cfg)).1 ∧
      ∃ cs, (watchdogrun pd eng none (.ok cfg)).1 = cs ++ [.Walk]) ∧
    (eng.acceptsAll →
      (∀ n ∈ cfg.GetSections, n ≠ "default" → optionsValid pd cfg n = true) →
      (watchdogrun pd eng none (.ok cfg)).2 = .returned true) := by
  refine ⟨?_, ?_⟩
  · intro h
    obtain ⟨cs, hl, hr⟩ := watchdogrun_of_returned pd eng cfg true h
    rw [hr]
    refine ⟨List.mem_append_left _ ?_, cs, rfl⟩
    exact loadSections_has_dependency pd eng cfg name X hnd
      (svcOpt_present cfg name "dependency" X hhas hget) hX _ hin [] cs hl
  · intro hacc hv
    obtain ⟨cs, hl⟩ := loadSections_accepts pd eng cfg hacc cfg.GetSections hv []
    rw [watchdogrun_returned pd eng cfg cs hl]

/-- Scenario B with `db` present: `api` gets the dependency "db". -/
theorem dependency_target_not_checked_witness :
    Call.AddDependency "api" "db" ∈
      (watchdogrun secondsOnly permissiveEngine none (.ok scenarioB)).1 :=
  ((dependency_target_not_checked secondsOnly permissiveEngine scenarioB "api" "db"
    (by decide) (by decide) (by decide) (by decide) (by decide)).1 (by decide)).1

end Watchdog
